import Mathlib

/-!
Verification development for the whatchanged document-comparison engine.

The definitions below are shallow embeddings of the Python sources:
  * src/utils/diff_engine.py      (tokenizer, LCS sequence diff, post-processing, similarity)
  * src/services/comparison_service.py  (structure / semantic / intent comparators, metric
    synthesis, significance banding, the compare_documents pipeline and its caching step)

Python floats are modelled as rationals; Python's round(x, n) banker's rounding is modelled
exactly on rationals.  difflib.SequenceMatcher (no junk heuristics apply to the inputs the
service passes: autojunk only fires for sequences of length at least 200) is modelled by the
standard recursive longest-matching-block construction with difflib's tie-breaking: among the
longest matching blocks the one with least source index, then least target index, wins.
-/

namespace WhatChanged

/-! ## Python string helpers on lists of characters -/

/-- Characters stripped by Python str.strip() and matched by the regex class backslash-s
(ASCII range, which covers every input exercised here). -/
def py_ws (c : Char) : Bool :=
  c = ' ' || c = '\t' || c = '\n' || c = '\r' || c = '\x0b' || c = '\x0c'

/-- Python str.strip(): drop whitespace from both ends. -/
def py_strip (l : List Char) : List Char :=
  ((l.dropWhile py_ws).reverse.dropWhile py_ws).reverse

/-- Whether the first list is an initial segment of the second. -/
def is_lead_of [DecidableEq α] : List α → List α → Bool
  | [], _ => true
  | _ :: _, [] => false
  | x :: xs, y :: ys => x = y && is_lead_of xs ys

/-- Index of the first occurrence of sep inside s, if any (leftmost match). -/
def find_sub [DecidableEq α] (sep s : List α) : Option ℕ :=
  (List.range (s.length + 1)).find? (fun i => is_lead_of sep (s.drop i))

/-- Python str.split(sep) for a non-empty separator: repeatedly cut at the leftmost
occurrence of sep.  Fuel-based so that it evaluates by kernel reduction. -/
def py_split_aux [DecidableEq α] (sep : List α) : ℕ → List α → List (List α)
  | 0, s => [s]
  | fuel + 1, s =>
    match find_sub sep s with
    | none => [s]
    | some i => s.take i :: py_split_aux sep fuel (s.drop (i + sep.length))

/-- Python s.split(sep). -/
def py_split [DecidableEq α] (s sep : List α) : List (List α) :=
  py_split_aux sep (s.length + 1) s

/-- Cut a character list at whitespace characters, keeping empty pieces. -/
def split_on_ws : List Char → List (List Char)
  | [] => [[]]
  | c :: cs =>
    match split_on_ws cs with
    | [] => [[c]]
    | t :: ts => if py_ws c then [] :: t :: ts else (c :: t) :: ts

/-- Sentence-ending punctuation class of the regex used by the tokenizer. -/
def is_sentence_punct (c : Char) : Bool :=
  c = '.' || c = '!' || c = '?'

/-- Splitter for re.split over the pattern: one or more of [.!?] followed by one or
more whitespace characters; the separator is consumed.  The accumulator holds the
current unit reversed; fuel keeps the recursion structural. -/
def sentence_split_aux : ℕ → List Char → List Char → List (List Char)
  | 0, cur, rest => [cur.reverse ++ rest]
  | _ + 1, cur, [] => [cur.reverse]
  | fuel + 1, cur, c :: cs =>
    if is_sentence_punct c then
      match (c :: cs).dropWhile is_sentence_punct with
      | [] => sentence_split_aux fuel (c :: cur) cs
      | d :: ds =>
        if py_ws d then
          cur.reverse :: sentence_split_aux fuel [] ((d :: ds).dropWhile py_ws)
        else
          sentence_split_aux fuel (c :: cur) cs
    else
      sentence_split_aux fuel (c :: cur) cs

/-! ## Tokenizer (AdvancedDiffEngine._tokenize_text) -/

/-- Granularity levels of the diff engine. -/
inductive GranularityLevel where
  | character
  | word
  | sentence
  | paragraph
  | semantic
  deriving DecidableEq

/-- AdvancedDiffEngine._tokenize_text: character → list of the characters; word → maximal
non-whitespace runs (re.findall of non-space runs); sentence → re.split on punctuation runs
followed by whitespace, stripped, empties dropped; paragraph → text.split of the two-character
separator newline-newline, stripped, empties dropped; any other granularity falls back to
word level. -/
def tokenize_text (text : List Char) (granularity : GranularityLevel) : List (List Char) :=
  match granularity with
  | .character => text.map (fun c => [c])
  | .word => (split_on_ws text).filter (fun t => t ≠ [])
  | .sentence =>
    ((sentence_split_aux (text.length + 1) [] text).map py_strip).filter (fun t => t ≠ [])
  | .paragraph =>
    ((py_split text ['\n', '\n']).map py_strip).filter (fun t => t ≠ [])
  | .semantic => (split_on_ws text).filter (fun t => t ≠ [])

/-! ## Sequence diff engine (difflib.SequenceMatcher model plus diff_engine.py) -/

/-- Kinds of diff operations (diff_engine.DiffType). -/
inductive DiffType where
  | add
  | delete
  | replace
  | move
  | equal
  deriving DecidableEq

/-- One diff operation (diff_engine.DiffOperation). -/
structure DiffOperation (α : Type _) where
  operation : DiffType
  source_start : ℕ
  source_end : ℕ
  target_start : ℕ
  target_end : ℕ
  source_content : List α
  target_content : List α
  confidence : ℚ
  deriving DecidableEq

/-- Python slice l[i:j]. -/
def slice (l : List α) (i j : ℕ) : List α :=
  (l.drop i).take (j - i)

/-- A matching block (difflib.Match): a run of size tokens equal at position a in the
source and position b in the target. -/
structure MatchBlock where
  a : ℕ
  b : ℕ
  size : ℕ
  deriving DecidableEq

/-- Length of the common initial run of two lists, capped by the first argument. -/
def commonLen [DecidableEq α] : ℕ → List α → List α → ℕ
  | 0, _, _ => 0
  | _ + 1, [], _ => 0
  | _ + 1, _, [] => 0
  | n + 1, x :: xs, y :: ys => if x = y then commonLen n xs ys + 1 else 0

/-- All candidate positions of the window, source index outermost, both ascending, so a
strict-improvement fold realizes difflib's tie-breaking. -/
def candidatePairs (alo ahi blo bhi : ℕ) : List (ℕ × ℕ) :=
  (List.range' alo (ahi - alo)).flatMap
    (fun i => (List.range' blo (bhi - blo)).map (fun j => (i, j)))

/-- difflib SequenceMatcher.find_longest_match over the window a[alo:ahi] and b[blo:bhi]:
the longest matching block, ties resolved to the least source index then least target
index; a zero-size block anchored at the window start when nothing matches. -/
def find_longest_match [DecidableEq α] (a b : List α) (alo ahi blo bhi : ℕ) : MatchBlock :=
  (candidatePairs alo ahi blo bhi).foldl
    (fun best ij =>
      let k := commonLen (min (ahi - ij.1) (bhi - ij.2)) (a.drop ij.1) (b.drop ij.2)
      if best.size < k then ⟨ij.1, ij.2, k⟩ else best)
    ⟨alo, blo, 0⟩

/-- difflib SequenceMatcher.get_matching_blocks recursion: find the longest match, then
recurse on the window to its left and to its right.  Fueled so it evaluates by kernel
reduction; the top-level wrapper supplies enough fuel for the recursion never to be cut. -/
def matching_blocks_aux [DecidableEq α] (a b : List α) :
    ℕ → ℕ → ℕ → ℕ → ℕ → List MatchBlock
  | 0, _, _, _, _ => []
  | fuel + 1, alo, ahi, blo, bhi =>
    let m := find_longest_match a b alo ahi blo bhi
    if m.size = 0 then []
    else
      matching_blocks_aux a b fuel alo m.a blo m.b ++ m ::
        matching_blocks_aux a b fuel (m.a + m.size) ahi (m.b + m.size) bhi

/-- The in-order matching blocks of two sequences (without the terminating sentinel). -/
def matching_blocks [DecidableEq α] (a b : List α) : List MatchBlock :=
  matching_blocks_aux a b (a.length + b.length + 1) 0 a.length 0 b.length

/-- Opcode tags of difflib get_opcodes. -/
inductive OpTag where
  | equal
  | insert
  | delete
  | replace
  deriving DecidableEq

/-- One difflib opcode: tag plus the half-open source range [i1,i2) and target range [j1,j2). -/
structure Opcode where
  tag : OpTag
  i1 : ℕ
  i2 : ℕ
  j1 : ℕ
  j2 : ℕ
  deriving DecidableEq

/-- difflib get_opcodes walk over the matching blocks (sentinel included by the caller):
emit a replace/delete/insert opcode for the gap before each block and an equal opcode
for the block itself. -/
def get_opcodes_aux : List MatchBlock → ℕ → ℕ → List Opcode
  | [], _, _ => []
  | blk :: rest, i, j =>
    (if i < blk.a ∧ j < blk.b then [⟨.replace, i, blk.a, j, blk.b⟩]
     else if i < blk.a then [⟨.delete, i, blk.a, j, blk.b⟩]
     else if j < blk.b then [⟨.insert, i, blk.a, j, blk.b⟩]
     else []) ++
    (if 0 < blk.size then [⟨.equal, blk.a, blk.a + blk.size, blk.b, blk.b + blk.size⟩]
     else []) ++
    get_opcodes_aux rest (blk.a + blk.size) (blk.b + blk.size)

/-- difflib SequenceMatcher.get_opcodes. -/
def get_opcodes [DecidableEq α] (a b : List α) : List Opcode :=
  get_opcodes_aux (matching_blocks a b ++ [⟨a.length, b.length, 0⟩]) 0 0

/-- The mapping performed inside AdvancedDiffEngine._syntactic_diff: equal opcodes are
skipped, the rest become DiffOperations carrying the sliced contents, confidence 1. -/
def op_of_opcode [DecidableEq α] (a b : List α) (oc : Opcode) : Option (DiffOperation α) :=
  match oc.tag with
  | .equal => none
  | .insert => some ⟨.add, oc.i1, oc.i2, oc.j1, oc.j2, slice a oc.i1 oc.i2, slice b oc.j1 oc.j2, 1⟩
  | .delete =>
    some ⟨.delete, oc.i1, oc.i2, oc.j1, oc.j2, slice a oc.i1 oc.i2, slice b oc.j1 oc.j2, 1⟩
  | .replace =>
    some ⟨.replace, oc.i1, oc.i2, oc.j1, oc.j2, slice a oc.i1 oc.i2, slice b oc.j1 oc.j2, 1⟩

/-- AdvancedDiffEngine._syntactic_diff. -/
def syntactic_diff [DecidableEq α] (a b : List α) : List (DiffOperation α) :=
  (get_opcodes a b).filterMap (op_of_opcode a b)

/-- Strict comparison on the Python sort key (source_start, target_start). -/
def opKeyLt (x y : DiffOperation α) : Bool :=
  if x.source_start < y.source_start then true
  else if x.source_start = y.source_start ∧ x.target_start < y.target_start then true
  else false

/-- Stable insertion used to model Python list.sort (a stable sort) on the key above. -/
def insertOpSorted (x : DiffOperation α) : List (DiffOperation α) → List (DiffOperation α)
  | [] => [x]
  | y :: ys => if opKeyLt y x then y :: insertOpSorted x ys else x :: y :: ys

/-- Stable sort by (source_start, target_start), as operations.sort does. -/
def sortOperations : List (DiffOperation α) → List (DiffOperation α)
  | [] => []
  | x :: xs => insertOpSorted x (sortOperations xs)

/-- The merged operation built inside _post_process_operations. -/
def mergeTwo (c n : DiffOperation α) : DiffOperation α :=
  ⟨c.operation, c.source_start, n.source_end, c.target_start, n.target_end,
    c.source_content ++ n.source_content, c.target_content ++ n.target_content,
    min c.confidence n.confidence⟩

/-- The merging loop of _post_process_operations: adjacent operations of the same kind
whose ranges are contiguous in both sequences are fused. -/
def mergeLoop : DiffOperation α → List (DiffOperation α) → List (DiffOperation α)
  | cur, [] => [cur]
  | cur, nxt :: rest =>
    if cur.operation = nxt.operation ∧ cur.source_end = nxt.source_start ∧
        cur.target_end = nxt.target_start then
      mergeLoop (mergeTwo cur nxt) rest
    else
      cur :: mergeLoop nxt rest

/-- AdvancedDiffEngine._post_process_operations: sort by (source_start, target_start),
then merge contiguous same-kind neighbours. -/
def post_process_operations (ops : List (DiffOperation α)) : List (DiffOperation α) :=
  match sortOperations ops with
  | [] => []
  | x :: xs => mergeLoop x xs

/-- The changed-unit count of _calculate_similarity: over add/delete/replace operations,
sum the larger of the source and target content lengths. -/
def changed_units : List (DiffOperation α) → ℕ
  | [] => 0
  | op :: rest =>
    (if op.operation = DiffType.add ∨ op.operation = DiffType.delete ∨
        op.operation = DiffType.replace then
      max op.source_content.length op.target_content.length
    else 0) + changed_units rest

/-- AdvancedDiffEngine._calculate_similarity. -/
def calculate_similarity (ops : List (DiffOperation α)) (source_len target_len : ℕ) : ℚ :=
  if source_len = 0 ∧ target_len = 0 then 1
  else
    max 0 (1 - (changed_units ops : ℚ) / (max (max source_len target_len) 1 : ℕ))

/-- Total size of the matching blocks. -/
def sum_block_sizes (bs : List MatchBlock) : ℕ :=
  (bs.map MatchBlock.size).sum

/-- difflib SequenceMatcher.ratio(): twice the matched size over the total length
(1 when both sequences are empty). -/
def ratioOf [DecidableEq α] (a b : List α) : ℚ :=
  if a.length + b.length = 0 then 1
  else 2 * (sum_block_sizes (matching_blocks a b) : ℚ) / (a.length + b.length)

/-! ## Replay semantics for edit-script soundness -/

/-- Replaying an edit script against the source a from position i: copy the untouched run
up to each operation's source range, emit the operation's target content, skip the
consumed source range, and copy the tail at the end. -/
def apply_operations (a : List α) : ℕ → List (DiffOperation α) → List α
  | i, [] => a.drop i
  | i, op :: rest =>
    (a.drop i).take (op.source_start - i) ++ op.target_content ++
      apply_operations a op.source_end rest

/-- Well-formedness of an edit script relative to source a and target b from cursor
(i, j): each operation starts at or after the cursor, the gap before it is a common run
of a and b, its target content is the corresponding slice of b, and the remainder is
well-formed from the operation's end; an empty script means the remaining suffixes agree. -/
def ScriptFrom (a b : List α) : ℕ → ℕ → List (DiffOperation α) → Prop
  | i, j, [] => a.drop i = b.drop j
  | i, j, op :: rest =>
    i ≤ op.source_start ∧ j ≤ op.target_start ∧
    op.source_start ≤ op.source_end ∧ op.target_start ≤ op.target_end ∧
    (a.drop i).take (op.source_start - i) = (b.drop j).take (op.target_start - j) ∧
    op.target_content = slice b op.target_start op.target_end ∧
    ScriptFrom a b op.source_end op.target_end rest

/-- Validity of a block list inside the window ending at (hi, hj), starting from cursor
(i, j): blocks are in order, each of positive size, and each matches equal slices of
a and b. -/
def BlocksChain (a b : List α) : ℕ → ℕ → List MatchBlock → ℕ → ℕ → Prop
  | i, j, [], hi, hj => i ≤ hi ∧ j ≤ hj
  | i, j, blk :: rest, hi, hj =>
    i ≤ blk.a ∧ j ≤ blk.b ∧ 0 < blk.size ∧
    slice a blk.a (blk.a + blk.size) = slice b blk.b (blk.b + blk.size) ∧
    BlocksChain a b (blk.a + blk.size) (blk.b + blk.size) rest hi hj

/-! ## Rounding and metric synthesis (comparison_service.py) -/

/-- Python round-half-to-even to the nearest integer, on exact rationals. -/
def rnd_half_even (q : ℚ) : ℤ :=
  if q - ⌊q⌋ < 1 / 2 then ⌊q⌋
  else if 1 / 2 < q - ⌊q⌋ then ⌊q⌋ + 1
  else if Even ⌊q⌋ then ⌊q⌋ else ⌊q⌋ + 1

/-- Python round(q, 2). -/
def py_round2 (q : ℚ) : ℚ :=
  (rnd_half_even (q * 100) : ℚ) / 100

/-- Python round(q, 3). -/
def py_round3 (q : ℚ) : ℚ :=
  (rnd_half_even (q * 1000) : ℚ) / 1000

/-- ComparisonService._calculate_change_significance_score: clamp the intensity into
[0,1], then apply the banded linear maps, rounding each result to two decimals. -/
def calculate_change_significance_score (x : ℚ) : ℚ :=
  if max 0 (min 1 x) < 1 / 10 then
    py_round2 (max 0 (min 1 x) * 10)
  else if max 0 (min 1 x) < 3 / 10 then
    py_round2 (1 + (max 0 (min 1 x) - 1 / 10) * 5)
  else if max 0 (min 1 x) < 6 / 10 then
    py_round2 (2 + (max 0 (min 1 x) - 3 / 10) * (333 / 100))
  else
    py_round2 (3 + (max 0 (min 1 x) - 6 / 10) * (5 / 2))

/-- The exact (pre-rounding) piecewise-linear banding used by the code, with the literal
slope 3.33 of the source in the third band. -/
def change_significance_exact (x : ℚ) : ℚ :=
  if x < 1 / 10 then x * 10
  else if x < 3 / 10 then 1 + (x - 1 / 10) * 5
  else if x < 6 / 10 then 2 + (x - 3 / 10) * (333 / 100)
  else 3 + (x - 6 / 10) * (5 / 2)

/-- The reference banding stated by the claim: each band mapped linearly ONTO its unit
interval, so the third band has slope 10/3 (not the code's 3.33) and no rounding. -/
def change_significance_claim_ref (x : ℚ) : ℚ :=
  if x < 1 / 10 then x * 10
  else if x < 3 / 10 then 1 + (x - 1 / 10) * 5
  else if x < 6 / 10 then 2 + (x - 3 / 10) * (10 / 3)
  else 3 + (x - 6 / 10) * (5 / 2)

/-- The numeric metric record built by _calculate_comparison_metrics. -/
structure ComparisonMetrics where
  overall_similarity : ℚ
  change_intensity : ℚ
  text_similarity : ℚ
  structural_similarity : ℚ
  semantic_similarity : ℚ
  intent_similarity : ℚ
  change_significance : ℚ
  similarity_score : ℚ
  change_score : ℚ
  deriving DecidableEq

/-- ComparisonService._calculate_comparison_metrics on already-numeric dimension inputs:
weighted sum 0.4/0.2/0.3/0.1, clamped to [0,1]; change intensity its complement; the
significance banding applied to the intensity; every stored field rounded to 3 decimals. -/
def calculate_comparison_metrics (t s sem i : ℚ) : ComparisonMetrics :=
  ⟨py_round3 (max 0 (min 1 (t * (4 / 10) + s * (2 / 10) + sem * (3 / 10) + i * (1 / 10)))),
   py_round3 (1 - max 0 (min 1 (t * (4 / 10) + s * (2 / 10) + sem * (3 / 10) + i * (1 / 10)))),
   py_round3 t, py_round3 s, py_round3 sem, py_round3 i,
   py_round3 (calculate_change_significance_score
     (1 - max 0 (min 1 (t * (4 / 10) + s * (2 / 10) + sem * (3 / 10) + i * (1 / 10))))),
   py_round3 (max 0 (min 1 (t * (4 / 10) + s * (2 / 10) + sem * (3 / 10) + i * (1 / 10)))),
   py_round3 (1 - max 0 (min 1 (t * (4 / 10) + s * (2 / 10) + sem * (3 / 10) + i * (1 / 10))))⟩

/-! ## Intent comparator (_compare_intent_patterns) -/

/-- The label fallback of the service: a falsy (empty) label counts as "unknown". -/
def normalize_label (l : String) : String :=
  if l = "" then "unknown" else l

/-- The set of intent labels appearing on either side. -/
def all_intents (la lb : List String) : Finset String :=
  (la ++ lb).toFinset

/-- Sum of the absolute count differences over all labels (the loop of
_compare_intent_patterns). -/
def intent_total_diff (la lb : List String) : ℕ :=
  ∑ l ∈ all_intents la lb, ((la.count l : ℤ) - (lb.count l : ℤ)).natAbs

/-- ComparisonService._compare_intent_patterns similarity: one minus the total count
difference over twice the larger chunk count, floored at zero. -/
def compare_intent_similarity (rawA rawB : List String) : ℚ :=
  max 0 (1 - (intent_total_diff (rawA.map normalize_label) (rawB.map normalize_label) : ℚ) /
    (2 * (max (max rawA.length rawB.length) 1 : ℕ)))

/-- The histogram-intersection similarity stated by the claim: the sum over labels of the
smaller of the two proportional frequencies. -/
def histogram_intersection (la lb : List String) : ℚ :=
  ∑ l ∈ all_intents la lb,
    min ((la.count l : ℚ) / la.length) ((lb.count l : ℚ) / lb.length)

/-! ## Structural comparator (_calculate_structure_similarity) -/

/-- ComparisonService._calculate_structure_similarity over the per-section heading lists:
1.0 when both are empty, 0.0 when exactly one is empty, otherwise
difflib.SequenceMatcher ratio over the heading sequences. -/
def calculate_structure_similarity (sections_a sections_b : List (List Char)) : ℚ :=
  if sections_a = [] ∧ sections_b = [] then 1
  else if sections_a = [] ∨ sections_b = [] then 0
  else ratioOf sections_a sections_b

/-- The structural-similarity formula stated by the claim: unchanged headings over the
larger heading count (and 1), where unchanged headings are those matched by the diff. -/
def structural_similarity_claim_ref (sections_a sections_b : List (List Char)) : ℚ :=
  (sum_block_sizes (matching_blocks sections_a sections_b) : ℚ) /
    (max (max sections_a.length sections_b.length) 1 : ℕ)

/-! ## Semantic aligner (_align_chunks_semantically) -/

/-- Dot product of two embedding vectors (the service's cosine similarity on
L2-normalized embeddings). -/
def dotQ (u v : List ℚ) : ℚ :=
  (List.zipWith (fun x y => x * y) u v).sum

/-- One recorded alignment (the dictionary built by the aligner, reduced to the fields
the claims concern). -/
structure SemanticAlignment where
  chunk_a_index : ℕ
  chunk_b_index : ℕ
  similarity : ℚ
  deriving DecidableEq

/-- The inner scan of the aligner: over the not-yet-used chunks of B, the best (strictly
largest, earliest-scanned on ties, strictly positive since the running best starts at 0)
similarity and its index. -/
def best_candidate (ea : List ℚ) (ebs : List (List ℚ)) (used : List ℕ) : ℚ × Option ℕ :=
  (List.range ebs.length).foldl
    (fun best j =>
      if j ∈ used then best
      else if best.1 < dotQ ea (ebs.getD j []) then (dotQ ea (ebs.getD j []), some j)
      else best)
    (0, none)

/-- The outer loop of _align_chunks_semantically: A chunks in index order; a B chunk is
consumed when chosen with similarity above the 0.3 floor. -/
def align_chunks_aux (ebs : List (List ℚ)) : List (ℕ × List ℚ) → List ℕ → List SemanticAlignment
  | [], _ => []
  | ia :: rest, used =>
    match (best_candidate ia.2 ebs used).2 with
    | some j =>
      if 3 / 10 < (best_candidate ia.2 ebs used).1 then
        ⟨ia.1, j, (best_candidate ia.2 ebs used).1⟩ :: align_chunks_aux ebs rest (j :: used)
      else
        align_chunks_aux ebs rest used
    | none => align_chunks_aux ebs rest used

/-- ComparisonService._align_chunks_semantically on the chunks' embedding vectors. -/
def align_chunks_semantically (eas ebs : List (List ℚ)) : List SemanticAlignment :=
  align_chunks_aux ebs eas.enum []

/-- ComparisonService._compare_semantic_content score: zero when either side has no
chunks; otherwise the mean similarity over the positive-similarity alignments (zero
when there are none). -/
def compare_semantic_content (eas ebs : List (List ℚ)) : ℚ :=
  if eas = [] ∨ ebs = [] then 0
  else
    (((align_chunks_semantically eas ebs).filter
        (fun al => 0 < al.similarity)).map SemanticAlignment.similarity).sum /
      (max ((align_chunks_semantically eas ebs).filter
        (fun al => 0 < al.similarity)).length 1 : ℕ)

/-! ## Comparison pipeline (compare_documents) -/

/-- The inputs one comparison consumes, after the database reads: the two joined
contents, the per-section heading lists, the labelled chunks' intent labels, and the
chunk embeddings. -/
structure CompareInput where
  content_a : List Char
  content_b : List Char
  headings_a : List (List Char)
  headings_b : List (List Char)
  labels_a : List String
  labels_b : List String
  embeddings_a : List (List ℚ)
  embeddings_b : List (List ℚ)
  deriving DecidableEq

/-- The outcome record of compare_documents, reduced to what the claims concern: the
text-diff statistics (none models the error dictionary returned without statistics when
content is missing), the synthesized metrics, and the record handed to the cache writer. -/
structure ComparisonOutcome where
  text_diff : Option ℚ
  metrics : ComparisonMetrics
  cached_record : Option ComparisonMetrics
  deriving DecidableEq

/-- ComparisonService._compare_text_content statistics: an error (no statistics) when
either content is empty, otherwise the SequenceMatcher ratio of the raw contents. -/
def compare_text_content (content_a content_b : List Char) : Option ℚ :=
  if content_a = [] ∨ content_b = [] then none
  else some (ratioOf content_a content_b)

/-- ComparisonService.compare_documents on a fresh (uncached) pair: run the four
comparators, synthesize metrics with a 0.0 fallback for a text diff that carries no
statistics, and hand the result to the cache writer.  No branch aborts: an empty
content only degrades the text dimension. -/
def compare_documents_pipeline (inp : CompareInput) : ComparisonOutcome :=
  ⟨compare_text_content inp.content_a inp.content_b,
   calculate_comparison_metrics
     (match compare_text_content inp.content_a inp.content_b with
      | none => 0
      | some r => r)
     (calculate_structure_similarity inp.headings_a inp.headings_b)
     (compare_semantic_content inp.embeddings_a inp.embeddings_b)
     (compare_intent_similarity inp.labels_a inp.labels_b),
   some (calculate_comparison_metrics
     (match compare_text_content inp.content_a inp.content_b with
      | none => 0
      | some r => r)
     (calculate_structure_similarity inp.headings_a inp.headings_b)
     (compare_semantic_content inp.embeddings_a inp.embeddings_b)
     (compare_intent_similarity inp.labels_a inp.labels_b))⟩

/-! ## Rounding lemmas -/

theorem rnd_half_even_ge (q : ℚ) : q - 1 / 2 ≤ (rnd_half_even q : ℚ) := by
  have h1 : (⌊q⌋ : ℚ) ≤ q := Int.floor_le q
  have h2 : q < ⌊q⌋ + 1 := Int.lt_floor_add_one q
  unfold rnd_half_even
  split_ifs with ha hb hc <;> push_cast <;> linarith

theorem rnd_half_even_le (q : ℚ) : (rnd_half_even q : ℚ) ≤ q + 1 / 2 := by
  have h1 : (⌊q⌋ : ℚ) ≤ q := Int.floor_le q
  have h2 : q < ⌊q⌋ + 1 := Int.lt_floor_add_one q
  unfold rnd_half_even
  split_ifs with ha hb hc <;> push_cast <;> linarith

theorem rnd_half_even_mono {p q : ℚ} (h : p ≤ q) : rnd_half_even p ≤ rnd_half_even q := by
  rcases eq_or_lt_of_le h with rfl | hlt
  · exact le_refl _
  · have h1 := rnd_half_even_le p
    have h2 := rnd_half_even_ge q
    have h3 : (rnd_half_even p : ℚ) < (rnd_half_even q : ℚ) + 1 := by linarith
    have h4 : rnd_half_even p < rnd_half_even q + 1 := by exact_mod_cast h3
    omega

theorem rnd_half_even_compl (m : ℤ) (hm : Even m) (q : ℚ) :
    rnd_half_even ((m : ℚ) - q) = m - rnd_half_even q := by
  have hq1 : (⌊q⌋ : ℚ) ≤ q := Int.floor_le q
  have hq2 : q < ⌊q⌋ + 1 := Int.lt_floor_add_one q
  rcases eq_or_lt_of_le hq1 with h0 | hpos
  · have hmq : (m : ℚ) - q = ((m - ⌊q⌋ : ℤ) : ℚ) := by push_cast; linarith
    unfold rnd_half_even
    rw [hmq, Int.floor_intCast]
    rw [if_pos (by norm_num : ((m - ⌊q⌋ : ℤ) : ℚ) - ((m - ⌊q⌋ : ℤ) : ℚ) < 1 / 2)]
    rw [if_pos (by linarith : q - (⌊q⌋ : ℚ) < 1 / 2)]
  · have hf : ⌊(m : ℚ) - q⌋ = m - ⌊q⌋ - 1 := by
      apply Int.floor_eq_iff.mpr
      constructor
      · push_cast; linarith
      · push_cast; linarith
    unfold rnd_half_even
    rw [hf]
    split_ifs <;>
      first
        | omega
        | (exfalso; push_cast at *; linarith)
        | (simp only [Int.even_iff] at *; push_cast at *; omega)

theorem py_round3_compl (q : ℚ) : py_round3 (1 - q) = 1 - py_round3 q := by
  unfold py_round3
  have h : (1 - q) * 1000 = ((1000 : ℤ) : ℚ) - q * 1000 := by push_cast; ring
  rw [h, rnd_half_even_compl 1000 (by decide) (q * 1000)]
  push_cast
  ring

theorem py_round3_nonneg {q : ℚ} (h : 0 ≤ q) : 0 ≤ py_round3 q := by
  unfold py_round3
  have h1 := rnd_half_even_ge (q * 1000)
  have h2 : (-1 : ℚ) < (rnd_half_even (q * 1000) : ℚ) := by nlinarith
  have h3 : (-1 : ℤ) < rnd_half_even (q * 1000) := by exact_mod_cast h2
  have h4 : (0 : ℚ) ≤ (rnd_half_even (q * 1000) : ℚ) := by exact_mod_cast (by omega : (0:ℤ) ≤ rnd_half_even (q * 1000))
  linarith

theorem py_round3_le_one {q : ℚ} (h : q ≤ 1) : py_round3 q ≤ 1 := by
  unfold py_round3
  have h1 := rnd_half_even_le (q * 1000)
  have h2 : (rnd_half_even (q * 1000) : ℚ) < 1001 := by nlinarith
  have h3 : rnd_half_even (q * 1000) < (1001 : ℤ) := by exact_mod_cast h2
  have h4 : (rnd_half_even (q * 1000) : ℚ) ≤ 1000 := by exact_mod_cast (by omega : rnd_half_even (q * 1000) ≤ (1000:ℤ))
  linarith

theorem py_round2_mono {p q : ℚ} (h : p ≤ q) : py_round2 p ≤ py_round2 q := by
  unfold py_round2
  have h1 : (rnd_half_even (p * 100) : ℚ) ≤ (rnd_half_even (q * 100) : ℚ) := by
    exact_mod_cast rnd_half_even_mono (by linarith : p * 100 ≤ q * 100)
  linarith

theorem rnd_half_even_intCast (n : ℤ) : rnd_half_even (n : ℚ) = n := by
  unfold rnd_half_even
  rw [Int.floor_intCast]
  rw [if_pos (by norm_num)]

theorem rnd_half_even_of_lt {q : ℚ} {n : ℤ} (h1 : (n : ℚ) ≤ q) (h2 : q < (n : ℚ) + 1 / 2) :
    rnd_half_even q = n := by
  have hf : ⌊q⌋ = n := Int.floor_eq_iff.mpr ⟨h1, by push_cast; linarith⟩
  unfold rnd_half_even
  rw [hf, if_pos (by push_cast; linarith)]

theorem rnd_half_even_of_gt {q : ℚ} {n : ℤ} (h1 : (n : ℚ) + 1 / 2 < q) (h2 : q < (n : ℚ) + 1) :
    rnd_half_even q = n + 1 := by
  have hf : ⌊q⌋ = n := Int.floor_eq_iff.mpr ⟨by push_cast; linarith, by push_cast; linarith⟩
  unfold rnd_half_even
  rw [hf, if_neg (by push_cast; linarith), if_pos (by push_cast; linarith)]

theorem py_round3_of_thousandth {q : ℚ} {n : ℤ} (h : q * 1000 = (n : ℚ)) : py_round3 q = q := by
  unfold py_round3
  rw [h, rnd_half_even_intCast]
  field_simp
  linarith

/-! ## Claim C3: metric synthesis -/

/-- C3: as stated the claim fails.  At dimension inputs (1, 1, 1, 1/2500) the stored
overall_similarity is 0.9, but the clamped weighted sum is 0.90004: the stored field is
additionally rounded to three decimals. -/
theorem c3_counterexample :
    (calculate_comparison_metrics 1 1 1 (1 / 2500)).overall_similarity ≠
      max 0 (min 1 ((1 : ℚ) * (4 / 10) + 1 * (2 / 10) + 1 * (3 / 10) + (1 / 2500) * (1 / 10))) := by
  have hw : (1 : ℚ) * (4 / 10) + 1 * (2 / 10) + 1 * (3 / 10) + (1 / 2500) * (1 / 10) =
      22501 / 25000 := by norm_num
  have hov : (calculate_comparison_metrics 1 1 1 (1 / 2500)).overall_similarity =
      py_round3 (max 0 (min 1 ((1 : ℚ) * (4 / 10) + 1 * (2 / 10) + 1 * (3 / 10) +
        (1 / 2500) * (1 / 10)))) := rfl
  rw [hov, hw]
  rw [min_eq_right (by norm_num : (22501 / 25000 : ℚ) ≤ 1),
    max_eq_right (by norm_num : (0 : ℚ) ≤ (22501 / 25000 : ℚ))]
  unfold py_round3
  rw [show rnd_half_even ((22501 : ℚ) / 25000 * 1000) = (900 : ℤ) from
    rnd_half_even_of_lt (by norm_num) (by norm_num)]
  norm_num

/-- C3 (amended): overall_similarity equals the 0.4/0.2/0.3/0.1-weighted sum clamped to
[0,1] and then rounded to three decimals; change_intensity equals 1 minus the stored
overall_similarity; and the stored overall_similarity always lies in [0,1], whatever the
four dimension inputs report. -/
theorem c3_metrics_synthesis (t s sem i : ℚ) :
    (calculate_comparison_metrics t s sem i).overall_similarity =
      py_round3 (max 0 (min 1 (t * (4 / 10) + s * (2 / 10) + sem * (3 / 10) + i * (1 / 10)))) ∧
    (calculate_comparison_metrics t s sem i).change_intensity =
      1 - (calculate_comparison_metrics t s sem i).overall_similarity ∧
    0 ≤ (calculate_comparison_metrics t s sem i).overall_similarity ∧
    (calculate_comparison_metrics t s sem i).overall_similarity ≤ 1 := by
  refine ⟨rfl, py_round3_compl _, py_round3_nonneg (le_max_left _ _), ?_⟩
  exact py_round3_le_one (max_le (by norm_num) (min_le_left _ _))

/-! ## Claim C4: change-significance banding -/

theorem sig_eq_round_exact (x : ℚ) :
    calculate_change_significance_score x =
      py_round2 (change_significance_exact (max 0 (min 1 x))) := by
  unfold calculate_change_significance_score change_significance_exact
  split_ifs <;> rfl

/-- C4: as stated the claim fails.  At change intensity 0.5 the code returns
round(2 + 0.2 * 3.33, 2) = 2.67, while a linear map of [0.3, 0.6) onto [2, 3) would give
8/3: the code's third band uses the truncated slope 3.33 and every band is rounded to two
decimals. -/
theorem c4_counterexample :
    calculate_change_significance_score (1 / 2) ≠ change_significance_claim_ref (1 / 2) := by
  have hc : max 0 (min 1 (1 / 2 : ℚ)) = 1 / 2 := by
    rw [min_eq_right (by norm_num), max_eq_right (by norm_num)]
  rw [sig_eq_round_exact, hc]
  have he : change_significance_exact (1 / 2) = 1333 / 500 := by
    unfold change_significance_exact
    rw [if_neg (by norm_num), if_neg (by norm_num), if_pos (by norm_num)]
    norm_num
  have hr : change_significance_claim_ref (1 / 2) = 8 / 3 := by
    unfold change_significance_claim_ref
    rw [if_neg (by norm_num), if_neg (by norm_num), if_pos (by norm_num)]
    norm_num
  rw [he, hr]
  unfold py_round2
  rw [show rnd_half_even ((1333 : ℚ) / 500 * 100) = (266 : ℤ) + 1 from
    rnd_half_even_of_gt (by norm_num) (by norm_num)]
  norm_num

/-- C4 (amended): for change intensity in [0,1], change_significance equals the
piecewise-linear banding with slopes 10, 5, 3.33 and 2.5 (so the third band reaches only
2.999, not 3), rounded to two decimals. -/
theorem c4_change_significance (x : ℚ) (h0 : 0 ≤ x) (h1 : x ≤ 1) :
    calculate_change_significance_score x = py_round2 (change_significance_exact x) := by
  have hc : max 0 (min 1 x) = x := by rw [min_eq_right h1, max_eq_right h0]
  rw [sig_eq_round_exact, hc]

theorem c4_change_significance_witness :
    0 ≤ (1 / 2 : ℚ) ∧ (1 / 2 : ℚ) ≤ 1 ∧
      calculate_change_significance_score (1 / 2) =
        py_round2 (change_significance_exact (1 / 2)) :=
  ⟨by norm_num, by norm_num, c4_change_significance (1 / 2) (by norm_num) (by norm_num)⟩

/-! ## Claim C5: monotonicity of change significance -/

theorem change_significance_exact_mono {p q : ℚ} (h : p ≤ q) :
    change_significance_exact p ≤ change_significance_exact q := by
  unfold change_significance_exact
  split_ifs <;> linarith

/-- C5: the computed change significance is monotone non-decreasing in change intensity
over [0,1], across band boundaries and after the two-decimal rounding. -/
theorem c5_change_significance_monotone (x y : ℚ) (hx0 : 0 ≤ x) (hx1 : x ≤ 1)
    (hy0 : 0 ≤ y) (hy1 : y ≤ 1) (hxy : x ≤ y) :
    calculate_change_significance_score x ≤ calculate_change_significance_score y := by
  rw [sig_eq_round_exact, sig_eq_round_exact]
  refine py_round2_mono (change_significance_exact_mono ?_)
  exact max_le_max (le_refl 0) (min_le_min (le_refl 1) hxy)

theorem c5_change_significance_monotone_witness :
    0 ≤ (1 / 20 : ℚ) ∧ (1 / 20 : ℚ) ≤ 1 ∧ 0 ≤ (7 / 10 : ℚ) ∧ (7 / 10 : ℚ) ≤ 1 ∧
      (1 / 20 : ℚ) ≤ 7 / 10 ∧
      calculate_change_significance_score (1 / 20) ≤
        calculate_change_significance_score (7 / 10) :=
  ⟨by norm_num, by norm_num, by norm_num, by norm_num, by norm_num,
    c5_change_significance_monotone (1 / 20) (7 / 10) (by norm_num) (by norm_num)
      (by norm_num) (by norm_num) (by norm_num)⟩

/-! ## Claim C6: intent comparator -/

theorem count_sum_over (la : List String) (s : Finset String) (h : la.toFinset ⊆ s) :
    ∑ l ∈ s, la.count l = la.length := by
  have hm : ∑ l ∈ la.toFinset, la.count l = la.length := by
    have h2 := Multiset.toFinset_sum_count_eq (la : Multiset String)
    simpa using h2
  rw [← hm]
  symm
  apply Finset.sum_subset h
  intro x _ hnx
  exact List.count_eq_zero.mpr (fun hmem => hnx (List.mem_toFinset.mpr hmem))

theorem left_toFinset_subset_all_intents (la lb : List String) :
    la.toFinset ⊆ all_intents la lb := by
  unfold all_intents
  rw [List.toFinset_append]
  exact Finset.subset_union_left

theorem right_toFinset_subset_all_intents (la lb : List String) :
    lb.toFinset ⊆ all_intents la lb := by
  unfold all_intents
  rw [List.toFinset_append]
  exact Finset.subset_union_right

theorem intent_total_diff_le (la lb : List String) :
    intent_total_diff la lb ≤ la.length + lb.length := by
  unfold intent_total_diff
  calc ∑ l ∈ all_intents la lb, ((la.count l : ℤ) - (lb.count l : ℤ)).natAbs
      ≤ ∑ l ∈ all_intents la lb, (la.count l + lb.count l) := by
        apply Finset.sum_le_sum
        intro l _
        omega
    _ = (∑ l ∈ all_intents la lb, la.count l) + ∑ l ∈ all_intents la lb, lb.count l :=
        Finset.sum_add_distrib
    _ = la.length + lb.length := by
        rw [count_sum_over la _ (left_toFinset_subset_all_intents la lb),
          count_sum_over lb _ (right_toFinset_subset_all_intents la lb)]

theorem min_eq_half_qq (a b : ℚ) : min a b = (a + b - |a - b|) / 2 := by
  rcases le_total a b with h | h
  · rw [min_eq_left h, abs_of_nonpos (by linarith)]
    ring
  · rw [min_eq_right h, abs_of_nonneg (by linarith)]
    ring

/-- C6: as stated the claim fails.  With one "x"-labelled chunk against two, the two
proportional distributions are identical (histogram intersection 1.0) but the service
computes 1 - 1/4 = 0.75, because it differences raw counts, not proportions. -/
theorem c6_counterexample :
    compare_intent_similarity ["x"] ["x", "x"] ≠ histogram_intersection ["x"] ["x", "x"] := by
  have hD : intent_total_diff (["x"].map normalize_label) (["x", "x"].map normalize_label) = 1 := by
    decide
  have hs : all_intents ["x"] ["x", "x"] = {"x"} := by decide
  have hlhs : compare_intent_similarity ["x"] ["x", "x"] = 3 / 4 := by
    unfold compare_intent_similarity
    rw [hD]
    norm_num
  have hrhs : histogram_intersection ["x"] ["x", "x"] = 1 := by
    unfold histogram_intersection
    rw [hs, Finset.sum_singleton]
    norm_num
  rw [hlhs, hrhs]
  norm_num

/-- C6 (amended): the intent similarity equals
max(0, 1 - (sum over labels of the absolute count difference) / (2 * max(nA, nB, 1)));
when both versions carry the same positive number of labelled chunks this coincides with
the histogram intersection of the proportional distributions; and it equals 1.0 exactly
when the two label count distributions are identical. -/
theorem c6_intent_similarity (A B : List String) :
    compare_intent_similarity A B =
      max 0 (1 - (intent_total_diff (A.map normalize_label) (B.map normalize_label) : ℚ) /
        (2 * (max (max A.length B.length) 1 : ℕ))) ∧
    (A.length = B.length → 0 < A.length →
      compare_intent_similarity A B =
        histogram_intersection (A.map normalize_label) (B.map normalize_label)) ∧
    (compare_intent_similarity A B = 1 ↔
      ∀ l, (A.map normalize_label).count l = (B.map normalize_label).count l) := by
  have hlenA : (A.map normalize_label).length = A.length := List.length_map _ _
  have hlenB : (B.map normalize_label).length = B.length := List.length_map _ _
  refine ⟨rfl, ?_, ?_⟩
  · intro hlen hpos
    have hn0 : (0 : ℚ) < (A.length : ℚ) := by exact_mod_cast hpos
    have hmax : (max (max A.length B.length) 1 : ℕ) = A.length := by
      rw [← hlen, Nat.max_self]
      exact Nat.max_eq_left hpos
    have hsumA : ∑ l ∈ all_intents (A.map normalize_label) (B.map normalize_label),
        (A.map normalize_label).count l = A.length := by
      rw [count_sum_over _ _ (left_toFinset_subset_all_intents _ _), hlenA]
    have hsumB : ∑ l ∈ all_intents (A.map normalize_label) (B.map normalize_label),
        (B.map normalize_label).count l = A.length := by
      rw [count_sum_over _ _ (right_toFinset_subset_all_intents _ _), hlenB, hlen]
    have hterm : ∀ l ∈ all_intents (A.map normalize_label) (B.map normalize_label),
        min (((A.map normalize_label).count l : ℚ) / (A.map normalize_label).length)
            (((B.map normalize_label).count l : ℚ) / (B.map normalize_label).length) =
          (((A.map normalize_label).count l : ℚ) + ((B.map normalize_label).count l : ℚ) -
            ((((A.map normalize_label).count l : ℤ) -
              ((B.map normalize_label).count l : ℤ)).natAbs : ℚ)) / (2 * A.length) := by
      intro l _
      have habs : ((((A.map normalize_label).count l : ℤ) -
          ((B.map normalize_label).count l : ℤ)).natAbs : ℚ) =
          |((A.map normalize_label).count l : ℚ) - ((B.map normalize_label).count l : ℚ)| := by
        rw [Int.cast_natAbs]
        push_cast
        ring_nf
      rw [hlenA, hlenB, ← hlen, habs]
      rw [min_eq_half_qq, div_add_div_same, div_sub_div_same]
      rw [abs_div, abs_of_nonneg (le_of_lt hn0), div_sub_div_same, div_div,
        mul_comm ((A.length : ℚ)) 2]
    have hhist : histogram_intersection (A.map normalize_label) (B.map normalize_label) =
        ((A.length : ℚ) + (A.length : ℚ) -
          (intent_total_diff (A.map normalize_label) (B.map normalize_label) : ℚ)) /
          (2 * A.length) := by
      have hsumAQ : ∑ l ∈ all_intents (A.map normalize_label) (B.map normalize_label),
          ((A.map normalize_label).count l : ℚ) = (A.length : ℚ) := by
        exact_mod_cast hsumA
      have hsumBQ : ∑ l ∈ all_intents (A.map normalize_label) (B.map normalize_label),
          ((B.map normalize_label).count l : ℚ) = (A.length : ℚ) := by
        exact_mod_cast hsumB
      have hsumD : ∑ l ∈ all_intents (A.map normalize_label) (B.map normalize_label),
          (((((A.map normalize_label).count l : ℤ) -
            ((B.map normalize_label).count l : ℤ)).natAbs : ℕ) : ℚ) =
          (intent_total_diff (A.map normalize_label) (B.map normalize_label) : ℚ) := by
        unfold intent_total_diff
        exact (Nat.cast_sum _ _).symm
      unfold histogram_intersection
      rw [Finset.sum_congr rfl hterm, ← Finset.sum_div, Finset.sum_sub_distrib,
        Finset.sum_add_distrib, hsumAQ, hsumBQ, hsumD]
    have hDle : (intent_total_diff (A.map normalize_label) (B.map normalize_label) : ℚ) ≤
        2 * A.length := by
      have h1 := intent_total_diff_le (A.map normalize_label) (B.map normalize_label)
      rw [hlenA, hlenB, ← hlen] at h1
      exact_mod_cast (by omega : intent_total_diff (A.map normalize_label)
        (B.map normalize_label) ≤ 2 * A.length)
    unfold compare_intent_similarity
    rw [hmax, hhist]
    rw [max_eq_right (by
      rw [le_sub_iff_add_le, zero_add, div_le_one (by linarith)]
      linarith)]
    field_simp
    ring
  · have hMpos : (0 : ℚ) < 2 * ((max (max A.length B.length) 1 : ℕ) : ℚ) := by
      have h1 : (1 : ℕ) ≤ max (max A.length B.length) 1 := le_max_right _ _
      have h2 : (1 : ℚ) ≤ ((max (max A.length B.length) 1 : ℕ) : ℚ) := by exact_mod_cast h1
      linarith
    constructor
    · intro h1
      have ht : 1 - (intent_total_diff (A.map normalize_label) (B.map normalize_label) : ℚ) /
          (2 * ((max (max A.length B.length) 1 : ℕ) : ℚ)) = 1 := by
        rcases max_choice 0 (1 - (intent_total_diff (A.map normalize_label)
            (B.map normalize_label) : ℚ) /
            (2 * ((max (max A.length B.length) 1 : ℕ) : ℚ))) with hc | hc
        · rw [compare_intent_similarity] at h1
          rw [hc] at h1
          norm_num at h1
        · rw [compare_intent_similarity] at h1
          rw [hc] at h1
          exact h1
      have hdiv : (intent_total_diff (A.map normalize_label) (B.map normalize_label) : ℚ) /
          (2 * ((max (max A.length B.length) 1 : ℕ) : ℚ)) = 0 := by linarith
      have hD0 : (intent_total_diff (A.map normalize_label) (B.map normalize_label) : ℚ) = 0 := by
        rcases div_eq_zero_iff.mp hdiv with h | h
        · exact h
        · exact absurd h (by linarith)
      have hDnat : intent_total_diff (A.map normalize_label) (B.map normalize_label) = 0 := by
        exact_mod_cast hD0
      intro l
      by_cases hl : l ∈ all_intents (A.map normalize_label) (B.map normalize_label)
      · have hz := (Finset.sum_eq_zero_iff.mp hDnat) l hl
        omega
      · simp only [all_intents, List.mem_toFinset, List.mem_append] at hl
        push_neg at hl
        rw [List.count_eq_zero.mpr hl.1, List.count_eq_zero.mpr hl.2]
    · intro hc
      have hD : intent_total_diff (A.map normalize_label) (B.map normalize_label) = 0 := by
        apply Finset.sum_eq_zero
        intro l _
        rw [hc l]
        omega
      rw [compare_intent_similarity, hD]
      norm_num

theorem c6_intent_similarity_witness :
    (["x"] : List String).length = (["y"] : List String).length ∧
      0 < (["x"] : List String).length ∧
      compare_intent_similarity ["x"] ["y"] =
        histogram_intersection (["x"].map normalize_label) (["y"].map normalize_label) :=
  ⟨rfl, by norm_num, (c6_intent_similarity ["x"] ["y"]).2.1 rfl (by norm_num)⟩

/-! ## Matching-block validity -/

theorem foldl_preserve {β γ : Type _} (P : β → Prop) (f : β → γ → β) :
    ∀ (l : List γ) (init : β), P init → (∀ s x, x ∈ l → P s → P (f s x)) →
      P (l.foldl f init) := by
  intro l
  induction l with
  | nil => intro init h0 _; exact h0
  | cons x xs ih =>
    intro init h0 hf
    exact ih (f init x) (hf init x (by simp) h0)
      (fun s y hy hs => hf s y (by simp [hy]) hs)

theorem commonLen_le [DecidableEq α] :
    ∀ (n : ℕ) (xs ys : List α), commonLen n xs ys ≤ n := by
  intro n
  induction n with
  | zero => intro xs ys; simp [commonLen]
  | succ n ih =>
    intro xs ys
    cases xs with
    | nil => simp [commonLen]
    | cons x xs =>
      cases ys with
      | nil => simp [commonLen]
      | cons y ys =>
        simp only [commonLen]
        split_ifs
        · have := ih xs ys
          omega
        · omega

theorem commonLen_take [DecidableEq α] :
    ∀ (n : ℕ) (xs ys : List α),
      xs.take (commonLen n xs ys) = ys.take (commonLen n xs ys) := by
  intro n
  induction n with
  | zero => intro xs ys; simp [commonLen]
  | succ n ih =>
    intro xs ys
    cases xs with
    | nil => simp [commonLen]
    | cons x xs =>
      cases ys with
      | nil => simp [commonLen]
      | cons y ys =>
        simp only [commonLen]
        split_ifs with hxy
        · subst hxy
          simp only [List.take_succ_cons]
          rw [ih xs ys]
        · simp

theorem mem_candidatePairs {alo ahi blo bhi : ℕ} {ij : ℕ × ℕ}
    (h : ij ∈ candidatePairs alo ahi blo bhi) :
    alo ≤ ij.1 ∧ ij.1 < ahi ∧ blo ≤ ij.2 ∧ ij.2 < bhi := by
  unfold candidatePairs at h
  simp only [List.mem_flatMap, List.mem_map] at h
  obtain ⟨i, hi, j, hj, rfl⟩ := h
  rw [List.mem_range'_1] at hi hj
  exact ⟨by omega, by omega, by omega, by omega⟩

theorem find_longest_match_valid [DecidableEq α] (a b : List α) (alo ahi blo bhi : ℕ)
    (h : 0 < (find_longest_match a b alo ahi blo bhi).size) :
    alo ≤ (find_longest_match a b alo ahi blo bhi).a ∧
    (find_longest_match a b alo ahi blo bhi).a +
      (find_longest_match a b alo ahi blo bhi).size ≤ ahi ∧
    blo ≤ (find_longest_match a b alo ahi blo bhi).b ∧
    (find_longest_match a b alo ahi blo bhi).b +
      (find_longest_match a b alo ahi blo bhi).size ≤ bhi ∧
    slice a (find_longest_match a b alo ahi blo bhi).a
      ((find_longest_match a b alo ahi blo bhi).a +
        (find_longest_match a b alo ahi blo bhi).size) =
      slice b (find_longest_match a b alo ahi blo bhi).b
        ((find_longest_match a b alo ahi blo bhi).b +
          (find_longest_match a b alo ahi blo bhi).size) := by
  revert h
  unfold find_longest_match
  refine foldl_preserve
    (fun r : MatchBlock => 0 < r.size →
      alo ≤ r.a ∧ r.a + r.size ≤ ahi ∧ blo ≤ r.b ∧ r.b + r.size ≤ bhi ∧
        slice a r.a (r.a + r.size) = slice b r.b (r.b + r.size)) _ _ _ ?_ ?_
  · intro h0
    exact absurd h0 (by simp)
  · intro s ij hmem hs
    dsimp only
    split_ifs with hlt
    · intro _
      obtain ⟨hb1, hb2, hb3, hb4⟩ := mem_candidatePairs hmem
      have hk := commonLen_le (min (ahi - ij.1) (bhi - ij.2)) (a.drop ij.1) (b.drop ij.2)
      have hk1 : commonLen (min (ahi - ij.1) (bhi - ij.2)) (a.drop ij.1) (b.drop ij.2) ≤
          ahi - ij.1 := le_trans hk (min_le_left _ _)
      have hk2 : commonLen (min (ahi - ij.1) (bhi - ij.2)) (a.drop ij.1) (b.drop ij.2) ≤
          bhi - ij.2 := le_trans hk (min_le_right _ _)
      have htk := commonLen_take (min (ahi - ij.1) (bhi - ij.2)) (a.drop ij.1) (b.drop ij.2)
      dsimp only
      refine ⟨hb1, by omega, hb3, by omega, ?_⟩
      simp only [slice, Nat.add_sub_cancel_left]
      exact htk
    · exact hs

theorem chain_weaken {a b : List α} :
    ∀ (l : List MatchBlock) {i j i' j' hi hj : ℕ},
      BlocksChain a b i' j' l hi hj → i ≤ i' → j ≤ j' → BlocksChain a b i j l hi hj := by
  intro l
  cases l with
  | nil =>
    intro i j i' j' hi hj h h1 h2
    exact ⟨le_trans h1 h.1, le_trans h2 h.2⟩
  | cons blk rest =>
    intro i j i' j' hi hj h h1 h2
    exact ⟨le_trans h1 h.1, le_trans h2 h.2.1, h.2.2⟩

theorem chain_append {a b : List α} :
    ∀ (l₁ : List MatchBlock) {l₂ : List MatchBlock} {i j m₁ m₂ hi hj : ℕ},
      BlocksChain a b i j l₁ m₁ m₂ → BlocksChain a b m₁ m₂ l₂ hi hj →
      BlocksChain a b i j (l₁ ++ l₂) hi hj := by
  intro l₁
  induction l₁ with
  | nil =>
    intro l₂ i j m₁ m₂ hi hj h1 h2
    exact chain_weaken l₂ h2 h1.1 h1.2
  | cons blk bs ih =>
    intro l₂ i j m₁ m₂ hi hj h1 h2
    exact ⟨h1.1, h1.2.1, h1.2.2.1, h1.2.2.2.1, ih h1.2.2.2.2 h2⟩

theorem matching_blocks_aux_chain [DecidableEq α] (a b : List α) :
    ∀ (fuel alo ahi blo bhi : ℕ), alo ≤ ahi → blo ≤ bhi →
      BlocksChain a b alo blo (matching_blocks_aux a b fuel alo ahi blo bhi) ahi bhi := by
  intro fuel
  induction fuel with
  | zero =>
    intro alo ahi blo bhi h1 h2
    exact ⟨h1, h2⟩
  | succ n ih =>
    intro alo ahi blo bhi h1 h2
    simp only [matching_blocks_aux]
    split_ifs with hz
    · exact ⟨h1, h2⟩
    · have hv := find_longest_match_valid a b alo ahi blo bhi (Nat.pos_of_ne_zero hz)
      obtain ⟨ha1, ha2, hb1, hb2, hsl⟩ := hv
      refine chain_append _ (ih alo _ blo _ ha1 hb1) ?_
      exact ⟨le_refl _, le_refl _, Nat.pos_of_ne_zero hz, hsl,
        ih ((find_longest_match a b alo ahi blo bhi).a +
            (find_longest_match a b alo ahi blo bhi).size) ahi
          ((find_longest_match a b alo ahi blo bhi).b +
            (find_longest_match a b alo ahi blo bhi).size) bhi ha2 hb2⟩

theorem chain_sum_le {a b : List α} :
    ∀ (l : List MatchBlock) {i j hi hj : ℕ},
      BlocksChain a b i j l hi hj →
      i + sum_block_sizes l ≤ hi ∧ j + sum_block_sizes l ≤ hj := by
  intro l
  induction l with
  | nil =>
    intro i j hi hj h
    obtain ⟨h1, h2⟩ := h
    simp only [sum_block_sizes, List.map_nil, List.sum_nil]
    omega
  | cons blk bs ih =>
    intro i j hi hj h
    obtain ⟨h1, h2, _, _, hrest⟩ := h
    have hr := ih hrest
    simp only [sum_block_sizes, List.map_cons, List.sum_cons] at hr ⊢
    omega

/-! ## Edit-script soundness machinery -/

theorem drop_drop_eq (l : List α) {i k : ℕ} (h : i ≤ k) :
    (l.drop i).drop (k - i) = l.drop k := by
  rw [List.drop_drop]
  congr 1
  omega

theorem slice_append_slice (l : List α) {i k m : ℕ} (h1 : i ≤ k) (h2 : k ≤ m) :
    slice l i k ++ slice l k m = slice l i m := by
  unfold slice
  have e : m - i = (k - i) + (m - k) := by omega
  rw [e, List.take_add, drop_drop_eq l h1]

theorem script_sound (a b : List α) :
    ∀ (ops : List (DiffOperation α)) (i j : ℕ),
      ScriptFrom a b i j ops → apply_operations a i ops = b.drop j := by
  intro ops
  induction ops with
  | nil => intro i j h; exact h
  | cons op rest ih =>
    intro i j h
    obtain ⟨h1, h2, h3, h4, h5, h6, h7⟩ := h
    show (a.drop i).take (op.source_start - i) ++ op.target_content ++
        apply_operations a op.source_end rest = b.drop j
    rw [ih _ _ h7, h5, h6]
    unfold slice
    have e2 : b.drop op.target_start = (b.drop j).drop (op.target_start - j) :=
      (drop_drop_eq b h2).symm
    have e3 : b.drop op.target_end =
        ((b.drop j).drop (op.target_start - j)).drop (op.target_end - op.target_start) := by
      rw [drop_drop_eq b h2, drop_drop_eq b h4]
    rw [e2, e3, List.append_assoc, List.take_append_drop, List.take_append_drop]

theorem script_prepend (a b : List α) :
    ∀ (ops : List (DiffOperation α)) {i j i' j' : ℕ}, i ≤ i' → j ≤ j' →
      (a.drop i).take (i' - i) = (b.drop j).take (j' - j) →
      ScriptFrom a b i' j' ops → ScriptFrom a b i j ops := by
  intro ops
  cases ops with
  | nil =>
    intro i j i' j' hi hj hseg h
    show a.drop i = b.drop j
    have ea : a.drop i = (a.drop i).take (i' - i) ++ a.drop i' := by
      rw [← drop_drop_eq a hi, List.take_append_drop]
    have eb : b.drop j = (b.drop j).take (j' - j) ++ b.drop j' := by
      rw [← drop_drop_eq b hj, List.take_append_drop]
    rw [ea, eb, hseg, h]
  | cons op rest =>
    intro i j i' j' hi hj hseg h
    obtain ⟨h1, h2, h3, h4, h5, h6, h7⟩ := h
    refine ⟨le_trans hi h1, le_trans hj h2, h3, h4, ?_, h6, h7⟩
    have ea : (a.drop i).take (op.source_start - i) =
        (a.drop i).take (i' - i) ++ (a.drop i').take (op.source_start - i') := by
      have e : op.source_start - i = (i' - i) + (op.source_start - i') := by omega
      rw [e, List.take_add, drop_drop_eq a hi]
    have eb : (b.drop j).take (op.target_start - j) =
        (b.drop j).take (j' - j) ++ (b.drop j').take (op.target_start - j') := by
      have e : op.target_start - j = (j' - j) + (op.target_start - j') := by omega
      rw [e, List.take_add, drop_drop_eq b hj]
    rw [ea, eb, hseg, h5]

theorem opcodes_script [DecidableEq α] (a b : List α) :
    ∀ (blocks : List MatchBlock) (i j : ℕ),
      BlocksChain a b i j blocks a.length b.length →
      ScriptFrom a b i j
        ((get_opcodes_aux (blocks ++ [⟨a.length, b.length, 0⟩]) i j).filterMap
          (op_of_opcode a b)) := by
  intro blocks
  induction blocks with
  | nil =>
    intro i j h
    obtain ⟨h1, h2⟩ := h
    by_cases hia : i < a.length <;> by_cases hjb : j < b.length
    · have hexp : ((get_opcodes_aux ([] ++ [⟨a.length, b.length, 0⟩]) i j).filterMap
          (op_of_opcode a b)) =
          [⟨.replace, i, a.length, j, b.length, slice a i a.length, slice b j b.length, 1⟩] := by
        simp [get_opcodes_aux, op_of_opcode, hia, hjb]
      rw [hexp]
      exact ⟨le_refl _, le_refl _, le_of_lt hia, le_of_lt hjb, by simp, rfl,
        by show a.drop a.length = b.drop b.length; simp [List.drop_length]⟩
    · have hexp : ((get_opcodes_aux ([] ++ [⟨a.length, b.length, 0⟩]) i j).filterMap
          (op_of_opcode a b)) =
          [⟨.delete, i, a.length, j, b.length, slice a i a.length, slice b j b.length, 1⟩] := by
        simp [get_opcodes_aux, op_of_opcode, hia, hjb]
      rw [hexp]
      exact ⟨le_refl _, le_refl _, le_of_lt hia, h2, by simp, rfl,
        by show a.drop a.length = b.drop b.length; simp [List.drop_length]⟩
    · have hexp : ((get_opcodes_aux ([] ++ [⟨a.length, b.length, 0⟩]) i j).filterMap
          (op_of_opcode a b)) =
          [⟨.add, i, a.length, j, b.length, slice a i a.length, slice b j b.length, 1⟩] := by
        simp [get_opcodes_aux, op_of_opcode, hia, hjb]
      rw [hexp]
      exact ⟨le_refl _, le_refl _, h1, le_of_lt hjb, by simp, rfl,
        by show a.drop a.length = b.drop b.length; simp [List.drop_length]⟩
    · have hexp : ((get_opcodes_aux ([] ++ [⟨a.length, b.length, 0⟩]) i j).filterMap
          (op_of_opcode a b)) = [] := by
        simp [get_opcodes_aux, op_of_opcode, hia, hjb]
      rw [hexp]
      show a.drop i = b.drop j
      have e1 : i = a.length := by omega
      have e2 : j = b.length := by omega
      rw [e1, e2]
      simp [List.drop_length]
  | cons blk bs ih =>
    intro i j h
    obtain ⟨h1, h2, hpos, hsl, hrest⟩ := h
    have hrec := ih (blk.a + blk.size) (blk.b + blk.size) hrest
    have hseg : (a.drop blk.a).take ((blk.a + blk.size) - blk.a) =
        (b.drop blk.b).take ((blk.b + blk.size) - blk.b) := by
      have hsl' := hsl
      simp only [slice] at hsl'
      exact hsl'
    have hmid : ScriptFrom a b blk.a blk.b
        ((get_opcodes_aux (bs ++ [⟨a.length, b.length, 0⟩])
          (blk.a + blk.size) (blk.b + blk.size)).filterMap (op_of_opcode a b)) :=
      script_prepend a b _ (Nat.le_add_right _ _) (Nat.le_add_right _ _) hseg hrec
    by_cases hia : i < blk.a <;> by_cases hjb : j < blk.b
    · have hexp : ((get_opcodes_aux ((blk :: bs) ++ [⟨a.length, b.length, 0⟩]) i j).filterMap
          (op_of_opcode a b)) =
          ⟨.replace, i, blk.a, j, blk.b, slice a i blk.a, slice b j blk.b, 1⟩ ::
            (get_opcodes_aux (bs ++ [⟨a.length, b.length, 0⟩])
              (blk.a + blk.size) (blk.b + blk.size)).filterMap (op_of_opcode a b) := by
        simp [get_opcodes_aux, op_of_opcode, hia, hjb, hpos]
      rw [hexp]
      exact ⟨le_refl _, le_refl _, le_of_lt hia, le_of_lt hjb, by simp, rfl, hmid⟩
    · have hexp : ((get_opcodes_aux ((blk :: bs) ++ [⟨a.length, b.length, 0⟩]) i j).filterMap
          (op_of_opcode a b)) =
          ⟨.delete, i, blk.a, j, blk.b, slice a i blk.a, slice b j blk.b, 1⟩ ::
            (get_opcodes_aux (bs ++ [⟨a.length, b.length, 0⟩])
              (blk.a + blk.size) (blk.b + blk.size)).filterMap (op_of_opcode a b) := by
        simp [get_opcodes_aux, op_of_opcode, hia, hjb, hpos]
      rw [hexp]
      exact ⟨le_refl _, le_refl _, le_of_lt hia, h2, by simp, rfl, hmid⟩
    · have hexp : ((get_opcodes_aux ((blk :: bs) ++ [⟨a.length, b.length, 0⟩]) i j).filterMap
          (op_of_opcode a b)) =
          ⟨.add, i, blk.a, j, blk.b, slice a i blk.a, slice b j blk.b, 1⟩ ::
            (get_opcodes_aux (bs ++ [⟨a.length, b.length, 0⟩])
              (blk.a + blk.size) (blk.b + blk.size)).filterMap (op_of_opcode a b) := by
        simp [get_opcodes_aux, op_of_opcode, hia, hjb, hpos]
      rw [hexp]
      exact ⟨le_refl _, le_refl _, h1, le_of_lt hjb, by simp, rfl, hmid⟩
    · have hexp : ((get_opcodes_aux ((blk :: bs) ++ [⟨a.length, b.length, 0⟩]) i j).filterMap
          (op_of_opcode a b)) =
          (get_opcodes_aux (bs ++ [⟨a.length, b.length, 0⟩])
            (blk.a + blk.size) (blk.b + blk.size)).filterMap (op_of_opcode a b) := by
        simp [get_opcodes_aux, op_of_opcode, hia, hjb, hpos]
      rw [hexp]
      have e1 : i = blk.a := by omega
      have e2 : j = blk.b := by omega
      rw [e1, e2]
      exact hmid

theorem opcodes_sorted [DecidableEq α] (a b : List α) :
    ∀ (blocks : List MatchBlock) (i j : ℕ),
      BlocksChain a b i j blocks a.length b.length →
      (∀ op ∈ (get_opcodes_aux (blocks ++ [⟨a.length, b.length, 0⟩]) i j).filterMap
          (op_of_opcode a b), i ≤ op.source_start) ∧
      List.Chain' (fun o1 o2 : DiffOperation α => o1.source_start < o2.source_start)
        ((get_opcodes_aux (blocks ++ [⟨a.length, b.length, 0⟩]) i j).filterMap
          (op_of_opcode a b)) := by
  intro blocks
  induction blocks with
  | nil =>
    intro i j h
    by_cases hia : i < a.length <;> by_cases hjb : j < b.length <;>
      constructor <;>
        simp [get_opcodes_aux, op_of_opcode, hia, hjb]
  | cons blk bs ih =>
    intro i j h
    obtain ⟨h1, h2, hpos, hsl, hrest⟩ := h
    have hih := ih (blk.a + blk.size) (blk.b + blk.size) hrest
    by_cases hia : i < blk.a <;> by_cases hjb : j < blk.b
    · have hexp : ((get_opcodes_aux ((blk :: bs) ++ [⟨a.length, b.length, 0⟩]) i j).filterMap
          (op_of_opcode a b)) =
          ⟨.replace, i, blk.a, j, blk.b, slice a i blk.a, slice b j blk.b, 1⟩ ::
            (get_opcodes_aux (bs ++ [⟨a.length, b.length, 0⟩])
              (blk.a + blk.size) (blk.b + blk.size)).filterMap (op_of_opcode a b) := by
        simp [get_opcodes_aux, op_of_opcode, hia, hjb, hpos]
      rw [hexp]
      constructor
      · intro op hop
        rcases List.mem_cons.mp hop with rfl | hmem
        · exact le_refl i
        · exact le_trans (by omega) (hih.1 op hmem)
      · rw [List.chain'_cons']
        refine ⟨?_, hih.2⟩
        intro y hy
        have hys := hih.1 y (List.mem_of_mem_head? hy)
        show i < y.source_start
        omega
    · have hexp : ((get_opcodes_aux ((blk :: bs) ++ [⟨a.length, b.length, 0⟩]) i j).filterMap
          (op_of_opcode a b)) =
          ⟨.delete, i, blk.a, j, blk.b, slice a i blk.a, slice b j blk.b, 1⟩ ::
            (get_opcodes_aux (bs ++ [⟨a.length, b.length, 0⟩])
              (blk.a + blk.size) (blk.b + blk.size)).filterMap (op_of_opcode a b) := by
        simp [get_opcodes_aux, op_of_opcode, hia, hjb, hpos]
      rw [hexp]
      constructor
      · intro op hop
        rcases List.mem_cons.mp hop with rfl | hmem
        · exact le_refl i
        · exact le_trans (by omega) (hih.1 op hmem)
      · rw [List.chain'_cons']
        refine ⟨?_, hih.2⟩
        intro y hy
        have hys := hih.1 y (List.mem_of_mem_head? hy)
        show i < y.source_start
        omega
    · have hexp : ((get_opcodes_aux ((blk :: bs) ++ [⟨a.length, b.length, 0⟩]) i j).filterMap
          (op_of_opcode a b)) =
          ⟨.add, i, blk.a, j, blk.b, slice a i blk.a, slice b j blk.b, 1⟩ ::
            (get_opcodes_aux (bs ++ [⟨a.length, b.length, 0⟩])
              (blk.a + blk.size) (blk.b + blk.size)).filterMap (op_of_opcode a b) := by
        simp [get_opcodes_aux, op_of_opcode, hia, hjb, hpos]
      rw [hexp]
      constructor
      · intro op hop
        rcases List.mem_cons.mp hop with rfl | hmem
        · exact le_refl i
        · exact le_trans (by omega) (hih.1 op hmem)
      · rw [List.chain'_cons']
        refine ⟨?_, hih.2⟩
        intro y hy
        have hys := hih.1 y (List.mem_of_mem_head? hy)
        show i < y.source_start
        omega
    · have hexp : ((get_opcodes_aux ((blk :: bs) ++ [⟨a.length, b.length, 0⟩]) i j).filterMap
          (op_of_opcode a b)) =
          (get_opcodes_aux (bs ++ [⟨a.length, b.length, 0⟩])
            (blk.a + blk.size) (blk.b + blk.size)).filterMap (op_of_opcode a b) := by
        simp [get_opcodes_aux, op_of_opcode, hia, hjb, hpos]
      rw [hexp]
      exact ⟨fun op hop => le_trans (by omega) (hih.1 op hop), hih.2⟩

theorem sortOperations_eq_of_chain' :
    ∀ (l : List (DiffOperation α)),
      List.Chain' (fun o1 o2 : DiffOperation α => o1.source_start < o2.source_start) l →
      sortOperations l = l := by
  intro l
  induction l with
  | nil => intro _; rfl
  | cons x xs ih =>
    intro h
    cases xs with
    | nil => simp [sortOperations, insertOpSorted]
    | cons y ys =>
      have hR : x.source_start < y.source_start := (List.chain'_cons.mp h).1
      have ht := (List.chain'_cons.mp h).2
      show insertOpSorted x (sortOperations (y :: ys)) = x :: y :: ys
      rw [ih ht]
      show insertOpSorted x (y :: ys) = x :: y :: ys
      have hk : opKeyLt y x = false := by
        unfold opKeyLt
        rw [if_neg (by omega), if_neg (by
          intro hc
          omega)]
      unfold insertOpSorted
      rw [hk]
      simp

theorem mergeLoop_script (a b : List α) :
    ∀ (rest : List (DiffOperation α)) (cur : DiffOperation α) (i j : ℕ),
      ScriptFrom a b i j (cur :: rest) → ScriptFrom a b i j (mergeLoop cur rest) := by
  intro rest
  induction rest with
  | nil => intro cur i j h; exact h
  | cons nxt rs ih =>
    intro cur i j h
    obtain ⟨h1, h2, h3, h4, h5, h6, hrest⟩ := h
    show ScriptFrom a b i j (mergeLoop cur (nxt :: rs))
    unfold mergeLoop
    split_ifs with hc
    · obtain ⟨hop, hse, hte⟩ := hc
      obtain ⟨g1, g2, g3, g4, g5, g6, grest⟩ := hrest
      apply ih
      refine ⟨h1, h2, by
        show cur.source_start ≤ nxt.source_end
        omega, by
        show cur.target_start ≤ nxt.target_end
        omega, h5, ?_, grest⟩
      show cur.target_content ++ nxt.target_content =
        slice b cur.target_start nxt.target_end
      rw [h6, g6, ← hte]
      exact slice_append_slice b h4 (by omega)
    · exact ⟨h1, h2, h3, h4, h5, h6, ih nxt _ _ hrest⟩

/-! ## Claim C1: edit-script soundness -/

/-- C1: replaying the post-processed syntactic diff of A and B against A reconstructs B
exactly, for every pair of token lists. -/
theorem c1_edit_script_soundness {α : Type _} [DecidableEq α] (a b : List α) :
    apply_operations a 0 (post_process_operations (syntactic_diff a b)) = b := by
  have hchain : BlocksChain a b 0 0 (matching_blocks a b) a.length b.length :=
    matching_blocks_aux_chain a b _ 0 a.length 0 b.length (Nat.zero_le _) (Nat.zero_le _)
  have hscript : ScriptFrom a b 0 0 (syntactic_diff a b) :=
    opcodes_script a b (matching_blocks a b) 0 0 hchain
  have hsorted := (opcodes_sorted a b (matching_blocks a b) 0 0 hchain).2
  have hsort_eq : sortOperations (syntactic_diff a b) = syntactic_diff a b :=
    sortOperations_eq_of_chain' _ hsorted
  have hpp : post_process_operations (syntactic_diff a b) =
      match syntactic_diff a b with
      | [] => []
      | x :: xs => mergeLoop x xs := by
    unfold post_process_operations
    rw [hsort_eq]
  cases hd : syntactic_diff a b with
  | nil =>
    rw [hd] at hpp hscript
    rw [hpp]
    have h0 : a.drop 0 = b.drop 0 := hscript
    simpa using h0
  | cons x xs =>
    rw [hd] at hpp hscript
    rw [hpp]
    have hm := mergeLoop_script a b xs x 0 0 hscript
    have hs := script_sound a b _ 0 0 hm
    simpa using hs

/-! ## Claim C2: similarity ratio and empty-side behaviour -/

theorem flatMap_const_nil {β γ : Type _} (l : List γ) :
    (l.flatMap (fun _ => ([] : List β))) = [] := by
  induction l with
  | nil => rfl
  | cons x xs ih => simp [ih]

theorem matching_blocks_nil_left [DecidableEq α] (B : List α) :
    matching_blocks ([] : List α) B = [] := by
  have hflm : find_longest_match ([] : List α) B 0 0 0 B.length = ⟨0, 0, 0⟩ := by
    unfold find_longest_match candidatePairs
    simp
  unfold matching_blocks
  simp only [List.length_nil, Nat.zero_add, matching_blocks_aux]
  rw [hflm]
  simp

theorem matching_blocks_nil_right [DecidableEq α] (A : List α) :
    matching_blocks A ([] : List α) = [] := by
  have hflm : find_longest_match A ([] : List α) 0 A.length 0 0 = ⟨0, 0, 0⟩ := by
    unfold find_longest_match candidatePairs
    simp [flatMap_const_nil]
  unfold matching_blocks
  simp only [List.length_nil, Nat.add_zero, matching_blocks_aux]
  rw [hflm]
  simp

theorem syntactic_diff_nil_left [DecidableEq α] (B : List α) (hB : B ≠ []) :
    syntactic_diff ([] : List α) B = [⟨.add, 0, 0, 0, B.length, [], B, 1⟩] := by
  have hp : 0 < B.length := List.length_pos.mpr hB
  unfold syntactic_diff get_opcodes
  rw [matching_blocks_nil_left]
  simp [get_opcodes_aux, op_of_opcode, slice, hp]

theorem syntactic_diff_nil_right [DecidableEq α] (A : List α) (hA : A ≠ []) :
    syntactic_diff A ([] : List α) = [⟨.delete, 0, A.length, 0, 0, A, [], 1⟩] := by
  have hp : 0 < A.length := List.length_pos.mpr hA
  unfold syntactic_diff get_opcodes
  rw [matching_blocks_nil_right]
  simp [get_opcodes_aux, op_of_opcode, slice, hp]

theorem post_process_singleton (op : DiffOperation α) :
    post_process_operations [op] = [op] := rfl

/-- C2: as stated the claim fails.  For A = [a, x, b], B = [b, y, a] the changed-unit
count is 4 against a maximum length of 3, so 1 - 4/3 is negative and the code clamps the
ratio to 0 rather than returning the stated formula. -/
theorem c2_counterexample :
    calculate_similarity (post_process_operations
        (syntactic_diff ['a', 'x', 'b'] ['b', 'y', 'a'])) 3 3 ≠
      1 - (changed_units (post_process_operations
        (syntactic_diff ['a', 'x', 'b'] ['b', 'y', 'a'])) : ℚ) /
        (max (max 3 3) 1 : ℕ) := by
  have hops : post_process_operations (syntactic_diff ['a', 'x', 'b'] ['b', 'y', 'a']) =
      [⟨.add, 0, 0, 0, 2, [], ['b', 'y'], 1⟩, ⟨.delete, 1, 3, 3, 3, ['x', 'b'], [], 1⟩] := by
    rfl
  have hcu : changed_units [(⟨.add, 0, 0, 0, 2, [], ['b', 'y'], 1⟩ : DiffOperation Char),
      ⟨.delete, 1, 3, 3, 3, ['x', 'b'], [], 1⟩] = 4 := by rfl
  rw [hops]
  unfold calculate_similarity
  rw [if_neg (by omega), hcu]
  have hmax : (max (max 3 3) 1 : ℕ) = 3 := by norm_num
  rw [hmax]
  push_cast
  rw [max_eq_left (by norm_num : (1 : ℚ) - 4 / 3 ≤ 0)]
  norm_num

/-- C2 (amended): the similarity ratio is the stated formula clamped below at zero
(1.0 when both sides are empty); when exactly one side is empty the diff is a single
Add (resp. Delete) operation spanning the whole non-empty side and the similarity is 0.0. -/
theorem c2_similarity_formula {α : Type _} [DecidableEq α] (A B : List α) :
    calculate_similarity (post_process_operations (syntactic_diff A B)) A.length B.length =
      (if A.length = 0 ∧ B.length = 0 then 1
       else max 0 (1 - (changed_units (post_process_operations (syntactic_diff A B)) : ℚ) /
         (max (max A.length B.length) 1 : ℕ))) ∧
    (A = [] → B ≠ [] →
      post_process_operations (syntactic_diff A B) = [⟨.add, 0, 0, 0, B.length, [], B, 1⟩] ∧
      calculate_similarity (post_process_operations (syntactic_diff A B))
        A.length B.length = 0) ∧
    (A ≠ [] → B = [] →
      post_process_operations (syntactic_diff A B) =
        [⟨.delete, 0, A.length, 0, 0, A, [], 1⟩] ∧
      calculate_similarity (post_process_operations (syntactic_diff A B))
        A.length B.length = 0) := by
  refine ⟨rfl, ?_, ?_⟩
  · intro hA hB
    subst hA
    rw [syntactic_diff_nil_left B hB, post_process_singleton]
    have hp : 0 < B.length := List.length_pos.mpr hB
    refine ⟨rfl, ?_⟩
    unfold calculate_similarity
    rw [if_neg (by
      rintro ⟨_, h2⟩
      omega)]
    have hcu : changed_units [(⟨DiffType.add, 0, 0, 0, B.length, [], B, 1⟩ :
        DiffOperation α)] = B.length := by
      simp [changed_units]
    rw [hcu]
    have hmax : (max (max ([] : List α).length B.length) 1) = B.length := by
      simp only [List.length_nil]
      omega
    rw [hmax]
    rw [div_self (by exact_mod_cast hp.ne' : ((B.length : ℕ) : ℚ) ≠ 0)]
    norm_num
  · intro hA hB
    subst hB
    rw [syntactic_diff_nil_right A hA, post_process_singleton]
    have hp : 0 < A.length := List.length_pos.mpr hA
    refine ⟨rfl, ?_⟩
    unfold calculate_similarity
    rw [if_neg (by
      rintro ⟨h1, _⟩
      omega)]
    have hcu : changed_units [(⟨DiffType.delete, 0, A.length, 0, 0, A, [], 1⟩ :
        DiffOperation α)] = A.length := by
      simp [changed_units]
    rw [hcu]
    have hmax : (max (max A.length ([] : List α).length) 1) = A.length := by
      simp only [List.length_nil]
      omega
    rw [hmax]
    rw [div_self (by exact_mod_cast hp.ne' : ((A.length : ℕ) : ℚ) ≠ 0)]
    norm_num

theorem c2_similarity_formula_witness :
    (([] : List Char) = []) ∧ ((['b'] : List Char) ≠ []) ∧
      (post_process_operations (syntactic_diff ([] : List Char) ['b']) =
          [⟨.add, 0, 0, 0, (['b'] : List Char).length, [], ['b'], 1⟩] ∧
        calculate_similarity (post_process_operations (syntactic_diff ([] : List Char) ['b']))
          ([] : List Char).length (['b'] : List Char).length = 0) :=
  ⟨rfl, by simp, (c2_similarity_formula ([] : List Char) ['b']).2.1 rfl (by simp)⟩

/-! ## Claim C7: structural similarity -/

/-- C7: as stated the claim fails.  For heading lists ["a"] and ["a", "b"] the code
returns the SequenceMatcher ratio 2*1/(1+2) = 2/3, not the claimed
unchanged/max(|A|,|B|,1) = 1/2. -/
theorem c7_counterexample :
    calculate_structure_similarity ["a".toList] ["a".toList, "b".toList] ≠
      structural_similarity_claim_ref ["a".toList] ["a".toList, "b".toList] := by
  have hM : sum_block_sizes (matching_blocks ["a".toList] ["a".toList, "b".toList]) = 1 := by
    rfl
  have hlhs : calculate_structure_similarity ["a".toList] ["a".toList, "b".toList] = 2 / 3 := by
    unfold calculate_structure_similarity
    rw [if_neg (by simp), if_neg (by simp)]
    unfold ratioOf
    rw [if_neg (by simp), hM]
    norm_num
  have hrhs : structural_similarity_claim_ref ["a".toList] ["a".toList, "b".toList] = 1 / 2 := by
    unfold structural_similarity_claim_ref
    rw [hM]
    norm_num
  rw [hlhs, hrhs]
  norm_num

/-- C7 (amended): the structural similarity is 1.0 when both heading lists are empty and
0.0 when exactly one is empty, as claimed; otherwise it is the SequenceMatcher ratio
2*matched/(|A|+|B|) (not unchanged/max(|A|,|B|,1)), and it always lies in [0,1]. -/
theorem c7_structural_similarity (sa sb : List (List Char)) :
    (sa = [] → sb = [] → calculate_structure_similarity sa sb = 1) ∧
    (sa = [] → sb ≠ [] → calculate_structure_similarity sa sb = 0) ∧
    (sa ≠ [] → sb = [] → calculate_structure_similarity sa sb = 0) ∧
    (sa ≠ [] → sb ≠ [] →
      calculate_structure_similarity sa sb =
        2 * (sum_block_sizes (matching_blocks sa sb) : ℚ) / (sa.length + sb.length) ∧
      0 ≤ calculate_structure_similarity sa sb ∧
      calculate_structure_similarity sa sb ≤ 1) := by
  refine ⟨?_, ?_, ?_, ?_⟩
  · intro h1 h2
    unfold calculate_structure_similarity
    rw [if_pos ⟨h1, h2⟩]
  · intro h1 h2
    unfold calculate_structure_similarity
    rw [if_neg (by tauto), if_pos (Or.inl h1)]
  · intro h1 h2
    unfold calculate_structure_similarity
    rw [if_neg (by tauto), if_pos (Or.inr h2)]
  · intro h1 h2
    have hchain := matching_blocks_aux_chain sa sb (sa.length + sb.length + 1)
      0 sa.length 0 sb.length (Nat.zero_le _) (Nat.zero_le _)
    have hsum := chain_sum_le (matching_blocks sa sb) hchain
    have hM1 : sum_block_sizes (matching_blocks sa sb) ≤ sa.length := by omega
    have hM2 : sum_block_sizes (matching_blocks sa sb) ≤ sb.length := by omega
    have hlenpos : 0 < sa.length + sb.length := by
      have := List.length_pos.mpr h1
      omega
    have hcalc : calculate_structure_similarity sa sb =
        2 * (sum_block_sizes (matching_blocks sa sb) : ℚ) / (sa.length + sb.length) := by
      unfold calculate_structure_similarity ratioOf
      rw [if_neg (by tauto), if_neg (by tauto), if_neg (by omega)]
    refine ⟨hcalc, ?_, ?_⟩
    · rw [hcalc]
      apply div_nonneg
      · positivity
      · positivity
    · rw [hcalc]
      rw [div_le_one (by
        have : (0 : ℚ) < (sa.length : ℚ) + (sb.length : ℚ) := by exact_mod_cast hlenpos
        exact this)]
      exact_mod_cast (by omega : 2 * sum_block_sizes (matching_blocks sa sb) ≤
        sa.length + sb.length)

theorem c7_structural_similarity_witness :
    (["a".toList] : List (List Char)) ≠ [] ∧ (["a".toList] : List (List Char)) ≠ [] ∧
      (calculate_structure_similarity ["a".toList] ["a".toList] =
          2 * (sum_block_sizes (matching_blocks ["a".toList] ["a".toList]) : ℚ) /
            ((["a".toList] : List (List Char)).length +
              (["a".toList] : List (List Char)).length) ∧
        0 ≤ calculate_structure_similarity ["a".toList] ["a".toList] ∧
        calculate_structure_similarity ["a".toList] ["a".toList] ≤ 1) :=
  ⟨by simp, by simp, (c7_structural_similarity ["a".toList] ["a".toList]).2.2.2
    (by simp) (by simp)⟩

/-! ## Claim C8: semantic aligner injectivity -/

theorem best_candidate_not_used (ea : List ℚ) (ebs : List (List ℚ)) (used : List ℕ) :
    ∀ j, (best_candidate ea ebs used).2 = some j → j ∉ used := by
  unfold best_candidate
  refine foldl_preserve (fun best : ℚ × Option ℕ => ∀ j, best.2 = some j → j ∉ used)
    _ _ _ ?_ ?_
  · intro j h
    simp at h
  · intro s x hx hs
    dsimp only
    split_ifs with h1 h2
    · exact hs
    · intro j hj
      have hxj : x = j := by
        simpa using hj
      rw [← hxj]
      exact h1
    · exact hs

theorem align_aux_not_used_nodup (ebs : List (List ℚ)) :
    ∀ (rest : List (ℕ × List ℚ)) (used : List ℕ),
      (∀ al ∈ align_chunks_aux ebs rest used, al.chunk_b_index ∉ used) ∧
      ((align_chunks_aux ebs rest used).map SemanticAlignment.chunk_b_index).Nodup := by
  intro rest
  induction rest with
  | nil =>
    intro used
    constructor
    · intro al h
      simp [align_chunks_aux] at h
    · simp [align_chunks_aux]
  | cons ia rs ih =>
    intro used
    cases hbc : (best_candidate ia.2 ebs used).2 with
    | none =>
      have he : align_chunks_aux ebs (ia :: rs) used = align_chunks_aux ebs rs used := by
        simp only [align_chunks_aux, hbc]
      rw [he]
      exact ih used
    | some j =>
      have hnj : j ∉ used := best_candidate_not_used ia.2 ebs used j hbc
      by_cases hth : 3 / 10 < (best_candidate ia.2 ebs used).1
      · have he : align_chunks_aux ebs (ia :: rs) used =
            ⟨ia.1, j, (best_candidate ia.2 ebs used).1⟩ ::
              align_chunks_aux ebs rs (j :: used) := by
          simp only [align_chunks_aux, hbc, if_pos hth]
        rw [he]
        have hihj := ih (j :: used)
        constructor
        · intro al hal
          rcases List.mem_cons.mp hal with rfl | hmem
          · exact hnj
          · intro hc
            exact (hihj.1 al hmem) (List.mem_cons_of_mem _ hc)
        · simp only [List.map_cons]
          rw [List.nodup_cons]
          refine ⟨?_, hihj.2⟩
          intro hc
          obtain ⟨al, hal, hj⟩ := List.mem_map.mp hc
          exact (hihj.1 al hal) (by rw [hj]; exact List.mem_cons_self _ _)
      · have he : align_chunks_aux ebs (ia :: rs) used = align_chunks_aux ebs rs used := by
          simp only [align_chunks_aux, hbc, if_neg hth]
        rw [he]
        exact ih used

/-- C8: the greedy semantic aligner never assigns the same B chunk to two A chunks: the
B-chunk indices recorded in the returned alignment list are pairwise distinct, so the
matched-A-to-B mapping is injective. -/
theorem c8_alignment_injective (eas ebs : List (List ℚ)) :
    ((align_chunks_semantically eas ebs).map SemanticAlignment.chunk_b_index).Nodup := by
  unfold align_chunks_semantically
  exact (align_aux_not_used_nodup ebs eas.enum []).2

/-! ## Claim C9: empty content does not abort the comparison -/

/-- C9: as stated the claim fails.  With version A's content empty the pipeline does not
abort: the text diff degrades to an error with no statistics, yet the other three
dimensions run, metrics are synthesized (overall similarity 0.3 here) and a record is
handed to the cache writer. -/
theorem c9_counterexample :
    (compare_documents_pipeline ⟨"".toList, "b".toList, [], [], [], [], [], []⟩).text_diff =
        none ∧
    (compare_documents_pipeline ⟨"".toList, "b".toList, [], [], [], [], [], []⟩).cached_record =
      some (compare_documents_pipeline
        ⟨"".toList, "b".toList, [], [], [], [], [], []⟩).metrics ∧
    (compare_documents_pipeline
        ⟨"".toList, "b".toList, [], [], [], [], [], []⟩).metrics.overall_similarity =
      3 / 10 := by
  refine ⟨rfl, rfl, ?_⟩
  have hm : (compare_documents_pipeline
      ⟨"".toList, "b".toList, [], [], [], [], [], []⟩).metrics =
      calculate_comparison_metrics 0 1 0 (compare_intent_similarity [] []) := rfl
  have hi : compare_intent_similarity [] [] = 1 := by
    unfold compare_intent_similarity
    rw [show intent_total_diff (List.map normalize_label []) (List.map normalize_label []) = 0
      from rfl]
    rw [show (max (max (List.length ([] : List String)) (List.length ([] : List String))) 1 :
      ℕ) = 1 from rfl]
    push_cast
    rw [max_eq_right (by norm_num : (0 : ℚ) ≤ 1 - 0 / (2 * 1))]
    norm_num
  rw [hm, hi]
  show py_round3 (max 0 (min 1 ((0 : ℚ) * (4 / 10) + 1 * (2 / 10) + 0 * (3 / 10) +
    1 * (1 / 10)))) = 3 / 10
  rw [show (0 : ℚ) * (4 / 10) + 1 * (2 / 10) + 0 * (3 / 10) + 1 * (1 / 10) = 3 / 10
    from by norm_num]
  rw [min_eq_right (by norm_num), max_eq_right (by norm_num)]
  rw [py_round3_of_thousandth (by norm_num : (3 : ℚ) / 10 * 1000 = ((300 : ℤ) : ℚ))]

/-- C9 (amended): when the content of either version is empty the comparison does not
abort: the text diff reports an error with no statistics, the comparison proceeds with
text similarity 0.0 in the synthesis, the other three dimension scores are still
computed, and the completed record is cached. -/
theorem c9_empty_content_continues (inp : CompareInput)
    (h : inp.content_a = [] ∨ inp.content_b = []) :
    (compare_documents_pipeline inp).text_diff = none ∧
    (compare_documents_pipeline inp).metrics =
      calculate_comparison_metrics 0
        (calculate_structure_similarity inp.headings_a inp.headings_b)
        (compare_semantic_content inp.embeddings_a inp.embeddings_b)
        (compare_intent_similarity inp.labels_a inp.labels_b) ∧
    (compare_documents_pipeline inp).cached_record =
      some (compare_documents_pipeline inp).metrics := by
  have ht : compare_text_content inp.content_a inp.content_b = none := by
    unfold compare_text_content
    rw [if_pos h]
  refine ⟨ht, ?_, rfl⟩
  have hm : (compare_documents_pipeline inp).metrics =
      calculate_comparison_metrics
        (match compare_text_content inp.content_a inp.content_b with
          | none => 0
          | some r => r)
        (calculate_structure_similarity inp.headings_a inp.headings_b)
        (compare_semantic_content inp.embeddings_a inp.embeddings_b)
        (compare_intent_similarity inp.labels_a inp.labels_b) := rfl
  rw [hm, ht]

theorem c9_empty_content_continues_witness :
    ((⟨"".toList, "b".toList, [], [], [], [], [], []⟩ : CompareInput).content_a = [] ∨
      (⟨"".toList, "b".toList, [], [], [], [], [], []⟩ : CompareInput).content_b = []) ∧
    ((compare_documents_pipeline ⟨"".toList, "b".toList, [], [], [], [], [], []⟩).text_diff =
        none ∧
      (compare_documents_pipeline ⟨"".toList, "b".toList, [], [], [], [], [], []⟩).metrics =
        calculate_comparison_metrics 0
          (calculate_structure_similarity [] [])
          (compare_semantic_content [] [])
          (compare_intent_similarity [] []) ∧
      (compare_documents_pipeline
          ⟨"".toList, "b".toList, [], [], [], [], [], []⟩).cached_record =
        some (compare_documents_pipeline
          ⟨"".toList, "b".toList, [], [], [], [], [], []⟩).metrics) :=
  ⟨Or.inl rfl, c9_empty_content_continues ⟨"".toList, "b".toList, [], [], [], [], [], []⟩
    (Or.inl rfl)⟩

/-! ## Claim C10: paragraph tokenization -/

/-- C10: as stated the claim fails.  The tokenizer splits on the literal two-character
separator (not on the regex newline-whitespace-newline), so "a\n \nb", whose blank line
contains a space, stays a single paragraph unit instead of splitting into "a" and "b". -/
theorem c10_counterexample :
    tokenize_text "a\n \nb".toList GranularityLevel.paragraph ≠ ["a".toList, "b".toList] := by
  decide

/-- C10 (amended): paragraph tokenization splits on occurrences of the exact
two-character string newline-newline, trims each unit, and drops empty units; a blank
line containing whitespace does not separate paragraphs, while an exact double newline
does. -/
theorem c10_paragraph_tokenization :
    (∀ text : List Char,
      tokenize_text text GranularityLevel.paragraph =
        ((py_split text ['\n', '\n']).map py_strip).filter (fun t => t ≠ [])) ∧
    tokenize_text "a\n \nb".toList GranularityLevel.paragraph = ["a\n \nb".toList] ∧
    tokenize_text "a\n\nb".toList GranularityLevel.paragraph = ["a".toList, "b".toList] := by
  refine ⟨fun text => rfl, by decide, by decide⟩

end WhatChanged
